import Mathlib

/-!
Verification of the ollama-rust client library (src/lib.rs) against its
natural-language specification.

The development shallowly embeds the observable behaviour of the library:

* the per-chunk NDJSON decoding done inside `pull_model_stream`
  (src/lib.rs:160-210) and `send_chat_request_stream` (src/lib.rs:285-321),
  where each network chunk is split on the byte `b'\n'`, empty segments are
  skipped, and each remaining segment is decoded into a typed event;
* the aggregation loop of `send_chat_request` (src/lib.rs:234-258);
* the image-attachment path of `send_chat_request_with_images`
  (src/lib.rs:215-232);
* tool dispatch `handle_tool_calls` (src/lib.rs:326-344) and the chat
  request body construction of `send_chat_request_stream` including
  `Tool::to_json` (src/lib.rs:79-90, 265-275).

External collaborators (the serde_json parser, the base64 encoder, the
filesystem and the HTTP transport) are not part of this repository; they
enter the embedding as explicit function parameters, so every theorem below
is universally quantified over their behaviour.  Process-output side effects
(`print!`, `println!`, `eprintln!`, `flush`) have no observable effect on the
values the library returns and are elided.
-/

namespace OllamaRust

/-- A dynamic JSON value, modelling `serde_json::Value`.  Numbers are
modelled as integers: every claim under verification concerns integral
fields (`total`/`completed`) or non-numeric fields, so the float variant of
`serde_json::Value::Number` is not needed. -/
inductive Json where
  | null
  | bool (b : Bool)
  | num (n : Int)
  | str (s : String)
  | arr (items : List Json)
  | obj (fields : List (String × Json))

/-- `serde_json::Value::get(key)`: on an object, the value stored under
`key` (object keys are unique after parsing); `None` on any other variant. -/
def Json.get : Json → String → Option Json
  | .obj fields, key => (fields.find? (fun kv => kv.1 == key)).map (fun kv => kv.2)
  | _, _ => none

/-- `serde_json::Value::as_str`. -/
def Json.asStr : Json → Option String
  | .str s => some s
  | _ => none

/-- `serde_json::Value::as_u64`: the number when it is a non-negative
integer representable in 64 bits, otherwise `None`. -/
def Json.asU64 : Json → Option Nat
  | .num n => if 0 ≤ n ∧ n < 2 ^ 64 then some n.toNat else none
  | _ => none

/-- `serde_json::Value::index_mut` assignment `body[key] = v`: replace the
value under `key`, or append the pair when the key is absent.  (On a
non-object the source would panic; the variant is unreachable in this
development because it is only applied to the literal object built in
`send_chat_request_stream`.) -/
def Json.setKey : Json → String → Json → Json
  | .obj fields, key, v =>
    if fields.any (fun kv => kv.1 == key)
    then .obj (fields.map (fun kv => if kv.1 == key then (kv.1, v) else kv))
    else .obj (fields ++ [(key, v)])
  | j, _, _ => j

/-- `Function` struct, src/lib.rs:25-29. -/
structure Function where
  name : String
  arguments : Json

/-- `ToolCall` struct, src/lib.rs:20-23. -/
structure ToolCall where
  function : Function

/-- `Message` struct, src/lib.rs:10-18. -/
structure Message where
  role : String
  content : String
  images : Option (List String)
  tool_calls : Option (List ToolCall)

/-- `ChatResponse` struct, src/lib.rs:31-35: the typed deserialization
target of one chat NDJSON record. -/
structure ChatResponse where
  message : Message
  done : Bool

/-- `ChatStreamItem` struct, src/lib.rs:37-42. -/
structure ChatStreamItem where
  content : String
  tool_calls : Option (List ToolCall)
  done : Bool

/-- `PullProgress` struct, src/lib.rs:44-50. -/
structure PullProgress where
  status : String
  digest : Option String
  total : Option Nat
  completed : Option Nat

/-- `Tool` struct, src/lib.rs:72-77.  The boxed handler closure becomes a
plain Lean function. -/
structure Tool where
  name : String
  description : String
  parameters : Json
  function : Json → String

/-- `Tool::to_json`, src/lib.rs:79-90. -/
def Tool.toJson (t : Tool) : Json :=
  .obj [("type", .str "function"),
        ("function", .obj [("name", .str t.name),
                           ("description", .str t.description),
                           ("parameters", t.parameters)])]

/-- Serde serialization of `ToolCall` (src/lib.rs:20-29):
`{function: {name, arguments}}`. -/
def ToolCall.toJson (tc : ToolCall) : Json :=
  .obj [("function", .obj [("name", .str tc.function.name),
                           ("arguments", tc.function.arguments)])]

/-- Serde serialization of `Message` (src/lib.rs:10-18); the `images` and
`tool_calls` fields are skipped when `None`
(`#[serde(skip_serializing_if = "Option::is_none")]`). -/
def Message.toJson (m : Message) : Json :=
  .obj ([("role", .str m.role), ("content", .str m.content)]
    ++ (match m.images with
        | some imgs => [("images", .arr (imgs.map .str))]
        | none => [])
    ++ (match m.tool_calls with
        | some tcs => [("tool_calls", .arr (tcs.map ToolCall.toJson))]
        | none => []))

/-- The chat request body built by `send_chat_request_stream`,
src/lib.rs:265-275: the base object `{model, messages, stream: true}`, with
`body["tools"]` assigned only when the registry is non-empty. -/
def chatRequestBody (model : String) (messages : List Message) (tools : List Tool) : Json :=
  let base := Json.obj [("model", .str model),
                        ("messages", .arr (messages.map Message.toJson)),
                        ("stream", .bool true)]
  if tools.isEmpty then base
  else base.setKey "tools" (.arr (tools.map Tool.toJson))

/-! ### Chunk splitting

`chunk.split(|&b| b == b'\n')` on a byte slice (src/lib.rs:163 and 288):
the list of segments between newline bytes, including empty segments.
Bytes are modelled as `Char` (the records under study are UTF-8 text, and
`String::from_utf8_lossy` on such text is the identity). -/

def splitNewline : List Char → List (List Char)
  | [] => [[]]
  | c :: rest =>
    if c = '\n' then [] :: splitNewline rest
    else
      match splitNewline rest with
      | [] => [[c]]
      | s :: ss => (c :: s) :: ss

/-- The complete non-empty records inside one chunk: the source's
`for line in lines { if line.is_empty() { continue; } ... }` loop skeleton
(src/lib.rs:166-169 and 291-294). -/
def chunkRecords (chunk : List Char) : List (List Char) :=
  (splitNewline chunk).filter (fun line => !line.isEmpty)

/-! ### Pull endpoint decoding (`pull_model_stream`, src/lib.rs:160-210) -/

/-- Decoding of one complete pull record (src/lib.rs:171-196).  The
serde_json parser is external; it enters as the parameter `parse`, standing
for `serde_json::from_str::<serde_json::Value>`. -/
def decodePullRecord (parse : String → Option Json) (line : List Char) : PullProgress :=
  let lineStr := String.mk line
  match parse lineStr with
  | some json =>
    { status := ((json.get "status").bind Json.asStr).getD ""
      digest := (json.get "digest").bind Json.asStr
      total := (json.get "total").bind Json.asU64
      completed := (json.get "completed").bind Json.asU64 }
  | none =>
    { status := lineStr, digest := none, total := none, completed := none }

/-- All events produced from one network chunk by the closure at
src/lib.rs:160-201: split on newlines, skip empty segments, decode each
remaining record. -/
def pullChunkEvents (parse : String → Option Json) (chunk : List Char) : List PullProgress :=
  (chunkRecords chunk).map (decodePullRecord parse)

/-- The flattened pull stream (src/lib.rs:203-212): each transport item is
either a byte chunk or a transport error; a chunk contributes its decoded
events (all `Ok`), an error contributes a single `Err` item. -/
def pullStream (parse : String → Option Json)
    (chunks : List (Except String (List Char))) : List (Except String PullProgress) :=
  chunks.flatMap (fun c =>
    match c with
    | .ok chunk => (pullChunkEvents parse chunk).map .ok
    | .error e => [.error e])

/-! ### Chat endpoint decoding (`send_chat_request_stream`, src/lib.rs:285-324) -/

/-- Decoding of one complete chat record (src/lib.rs:295-307).  `parse`
stands for `serde_json::from_slice::<ChatResponse>`; on success one item is
produced, on failure the record is dropped (the source also prints a
diagnostic to stderr, which has no effect on the stream's items). -/
def decodeChatRecord (parse : List Char → Option ChatResponse) (line : List Char) :
    List ChatStreamItem :=
  match parse line with
  | some chatResponse =>
    [{ content := chatResponse.message.content
       tool_calls := chatResponse.message.tool_calls
       done := chatResponse.done }]
  | none => []

/-- All events produced from one network chunk by the closure at
src/lib.rs:285-312. -/
def chatChunkEvents (parse : List Char → Option ChatResponse) (chunk : List Char) :
    List ChatStreamItem :=
  (chunkRecords chunk).flatMap (decodeChatRecord parse)

/-- The flattened chat stream (src/lib.rs:314-323). -/
def chatStream (parse : List Char → Option ChatResponse)
    (chunks : List (Except String (List Char))) : List (Except String ChatStreamItem) :=
  chunks.flatMap (fun c =>
    match c with
    | .ok chunk => (chatChunkEvents parse chunk).map .ok
    | .error e => [.error e])

/-! ### Chat aggregation (`send_chat_request`, src/lib.rs:234-258) -/

/-- The aggregation loop of `send_chat_request` over the stream's items,
threading the `full_response` and `tool_calls` accumulators.  The
`print!`/`flush`/`println!` calls affect only process output and are
elided. -/
def sendChatRequestLoop :
    List (Except String ChatStreamItem) → String → Option (List ToolCall) →
    Except String (String × Option (List ToolCall))
  | [], acc, tc => .ok (acc, tc)
  | .error e :: _, _, _ => .error ("Stream error: " ++ e)
  | .ok item :: rest, acc, tc =>
    let acc' := if item.content.isEmpty then acc else acc ++ item.content
    let tc' := match item.tool_calls with
               | some t => some t
               | none => tc
    if item.done then .ok (acc', tc')
    else sendChatRequestLoop rest acc' tc'

/-- `send_chat_request` seen as a function of the decoded event stream:
accumulators start at `""` and `None` (src/lib.rs:238-239). -/
def sendChatRequest (items : List (Except String ChatStreamItem)) :
    Except String (String × Option (List ToolCall)) :=
  sendChatRequestLoop items "" none

/-- The prefix of the event sequence the loop actually consumes: everything
up to and including the first `done = true` event. -/
def takeThroughDone : List ChatStreamItem → List ChatStreamItem
  | [] => []
  | item :: rest => if item.done then [item] else item :: takeThroughDone rest

/-! ### Image attachment (`send_chat_request_with_images`, src/lib.rs:215-232) -/

/-- The read-and-encode loop of src/lib.rs:220-224.  `readFile` stands for
`std::fs::read` (external filesystem), `b64` for
`general_purpose::STANDARD.encode` (external base64 crate).  The `?`
operator aborts at the first failing read. -/
def encodeImages (readFile : String → Except String (List Nat)) (b64 : List Nat → String) :
    List String → Except String (List String)
  | [] => .ok []
  | p :: rest =>
    match readFile p with
    | .error e => .error e
    | .ok bytes => (encodeImages readFile b64 rest).map (fun l => b64 bytes :: l)

/-- The clone-and-attach step of src/lib.rs:226-229: `messages.to_vec()`
followed by `last_mut` assignment of the `images` field. -/
def attachImages : List Message → List String → List Message
  | [], _ => []
  | [m], encoded => [{ m with images := some encoded }]
  | m :: m2 :: rest, encoded => m :: attachImages (m2 :: rest) encoded

/-- The observable outcome of `send_chat_request_with_images` up to the
point where the HTTP request is issued: either the request is sent with the
given outgoing message list (`sent`), or a file read failed first and the
call aborts with that I/O error before any network activity (`ioError`). -/
inductive ImagesCallOutcome where
  | sent (messages : List Message)
  | ioError (e : String)

/-- `send_chat_request_with_images`, src/lib.rs:215-232, up to the request
send. -/
def sendChatRequestWithImagesCall (readFile : String → Except String (List Nat))
    (b64 : List Nat → String) (messages : List Message) (imagePaths : List String) :
    ImagesCallOutcome :=
  match encodeImages readFile b64 imagePaths with
  | .ok encoded => .sent (attachImages messages encoded)
  | .error e => .ioError e

/-! ### Tool dispatch (`handle_tool_calls`, src/lib.rs:326-344) -/

/-- `handle_tool_calls`: for each call, find the first registered tool with
the exact same name; on a match push one `role = "tool"` message holding
the handler's result, otherwise push nothing. -/
def handleToolCalls (tools : List Tool) : List ToolCall → List Message
  | [] => []
  | call :: rest =>
    match tools.find? (fun t => t.name == call.function.name) with
    | some tool =>
      { role := "tool"
        content := tool.function call.function.arguments
        images := none
        tool_calls := none } :: handleToolCalls tools rest
    | none => handleToolCalls tools rest

/-! ### Concrete instances of the external collaborators

Finite tables standing for `serde_json` parsing on the specific record
texts used in witnesses and counterexamples.  Each table agrees with the
real parser on its inputs: the complete record text parses to the given
value, and every proper fragment of it is invalid JSON (for the typed chat
parser: fails to deserialize a `ChatResponse`). -/

/-- The record text `\x7b"status":"x"\x7d`. -/
def pullRecordEx : String := "\x7b\"status\":\"x\"\x7d"

/-- `serde_json::from_str::<Value>` restricted to the inputs exercised
below: the complete record parses, its fragments do not. -/
def pullParseEx : String → Option Json := fun s =>
  if s = pullRecordEx then some (Json.obj [("status", Json.str "x")]) else none

/-- First half of `pullRecordEx`, ending mid-record (no newline). -/
def pullChunkA : List Char := "\x7b\"status\":\"x".toList

/-- Second half of `pullRecordEx` followed by the record delimiter. -/
def pullChunkB : List Char := "\"\x7d\n".toList

/-- The chat record text
`\x7b"message":\x7b"role":"assistant","content":"hi"\x7d,"done":true\x7d`. -/
def chatRecordEx : String :=
  "\x7b\"message\":\x7b\"role\":\"assistant\",\"content\":\"hi\"\x7d,\"done\":true\x7d"

/-- `serde_json::from_slice::<ChatResponse>` restricted to the inputs
exercised below. -/
def chatParseEx : List Char → Option ChatResponse := fun l =>
  if l = chatRecordEx.toList then
    some { message := { role := "assistant", content := "hi", images := none, tool_calls := none }
           done := true }
  else none

/-- First half of `chatRecordEx`, ending mid-record (no newline). -/
def chatChunkA : List Char := chatRecordEx.toList.take 12

/-- Second half of `chatRecordEx` followed by the record delimiter. -/
def chatChunkB : List Char := chatRecordEx.toList.drop 12 ++ ['\n']

/-- A well-formed chat record used as the "subsequent valid record" in the
malformed-line witness. -/
def chatGoodRecordEx : String :=
  "\x7b\"message\":\x7b\"role\":\"a\",\"content\":\"ok\"\x7d,\"done\":false\x7d"

/-- Typed chat parser table recognising `chatGoodRecordEx` only. -/
def chatParseGoodEx : List Char → Option ChatResponse := fun l =>
  if l = chatGoodRecordEx.toList then
    some { message := { role := "a", content := "ok", images := none, tool_calls := none }
           done := false }
  else none

/-- A user message used in witnesses. -/
def msgUserEx : Message :=
  { role := "user", content := "hi", images := none, tool_calls := none }

/-- An assistant message used in witnesses. -/
def msgAsstEx : Message :=
  { role := "assistant", content := "yo", images := none, tool_calls := none }

/-- A registered tool used in witnesses: name `get_weather`, handler
returning a constant text. -/
def toolWeatherEx : Tool :=
  { name := "get_weather", description := "weather lookup", parameters := Json.null,
    function := fun _ => "sunny" }

/-- A server tool call naming the registered tool. -/
def callWeatherEx : ToolCall :=
  { function := { name := "get_weather", arguments := Json.obj [("city", Json.str "Paris")] } }

/-- A server tool call naming no registered tool. -/
def callUnknownEx : ToolCall :=
  { function := { name := "unknown_tool", arguments := Json.null } }

/-! ## Lemmas about chunk splitting -/

theorem splitNewline_ne_nil (l : List Char) : splitNewline l ≠ [] := by
  cases l with
  | nil => simp [splitNewline]
  | cons c rest =>
    simp only [splitNewline]
    by_cases h : c = '\n'
    · simp [h]
    · simp only [h, if_false]
      cases splitNewline rest <;> simp

theorem splitNewline_append (a b : List Char) :
    splitNewline (a ++ '\n' :: b) = splitNewline a ++ splitNewline b := by
  induction a with
  | nil => simp [splitNewline]
  | cons c a ih =>
    by_cases h : c = '\n'
    · subst h
      simp [List.cons_append, splitNewline, List.append_eq, ih]
    · have hne := splitNewline_ne_nil a
      rcases hsa : splitNewline a with _ | ⟨s, ss⟩
      · exact absurd hsa hne
      · simp only [List.cons_append, splitNewline, if_neg h, List.append_eq, ih, hsa,
          List.cons_append]

theorem splitNewline_of_not_mem {l : List Char} (h : '\n' ∉ l) :
    splitNewline l = [l] := by
  induction l with
  | nil => rfl
  | cons c rest ih =>
    have hc : c ≠ '\n' := fun hc => h (hc ▸ List.mem_cons_self c rest)
    have hrest : '\n' ∉ rest := fun hr => h (List.mem_cons_of_mem c hr)
    simp only [splitNewline, hc, if_false, ih hrest]

theorem chunkRecords_append {a : List Char} (b : List Char)
    (ha : a = [] ∨ ∃ d, a = d ++ ['\n']) :
    chunkRecords (a ++ b) = chunkRecords a ++ chunkRecords b := by
  rcases ha with rfl | ⟨d, rfl⟩
  · simp [chunkRecords, splitNewline]
  · have h1 : d ++ ['\n'] ++ b = d ++ '\n' :: b := by simp
    have h2 : d ++ ['\n'] = d ++ '\n' :: ([] : List Char) := by simp
    rw [h1, h2, chunkRecords, chunkRecords, chunkRecords,
        splitNewline_append, splitNewline_append,
        List.filter_append, List.filter_append]
    simp [splitNewline]

theorem chunkRecords_flatten {chunks : List (List Char)}
    (h : ∀ c ∈ chunks, c = [] ∨ ∃ d, c = d ++ ['\n']) :
    chunkRecords chunks.flatten = chunks.flatMap chunkRecords := by
  induction chunks with
  | nil => rfl
  | cons c cs ih =>
    rw [List.flatten_cons, List.flatMap_cons,
        chunkRecords_append _ (h c (List.mem_cons_self c cs)),
        ih (fun x hx => h x (List.mem_cons_of_mem c hx))]

theorem chunkRecords_cons_record {line : List Char} (rest : List Char)
    (hnl : '\n' ∉ line) (hne : line ≠ []) :
    chunkRecords (line ++ '\n' :: rest) = line :: chunkRecords rest := by
  have hie : line.isEmpty = false := by
    cases line with
    | nil => exact absurd rfl hne
    | cons c cs => rfl
  rw [chunkRecords, splitNewline_append, splitNewline_of_not_mem hnl,
      List.filter_append, chunkRecords]
  simp [List.filter_cons, hie]

/-! ## Claim C1: chunking-invariance of the line reassembly layer -/

/-- Claim C1, amended: the source splits every chunk on newlines
independently and carries no buffer across chunks, so chunking-invariance
holds exactly when every chunk boundary falls on a record boundary.  For
both endpoints: if every chunk is empty or newline-terminated, the stream
emits the same events as decoding the whole concatenation at once (hence
exactly the records' events, in order). -/
theorem stream_decoding_invariant_on_record_boundaries
    (pparse : String → Option Json) (cparse : List Char → Option ChatResponse)
    (chunks : List (List Char))
    (h : ∀ c ∈ chunks, c = [] ∨ ∃ d, c = d ++ ['\n']) :
    pullStream pparse (chunks.map Except.ok)
      = (pullChunkEvents pparse chunks.flatten).map Except.ok
    ∧ chatStream cparse (chunks.map Except.ok)
      = (chatChunkEvents cparse chunks.flatten).map Except.ok := by
  constructor
  · rw [pullStream, List.flatMap_map]
    show chunks.flatMap (fun c => (pullChunkEvents pparse c).map Except.ok) = _
    rw [pullChunkEvents, chunkRecords_flatten h, List.map_flatMap, List.map_flatMap]
    rfl
  · rw [chatStream, List.flatMap_map]
    show chunks.flatMap (fun c => (chatChunkEvents cparse c).map Except.ok) = _
    rw [chatChunkEvents, chunkRecords_flatten h, List.flatMap_assoc, List.map_flatMap]
    rfl

/-- Witness for the amended C1 theorem at the single newline-terminated
chunk `"a\n"`, with parsers rejecting everything. -/
theorem stream_decoding_invariant_witness :
    pullStream (fun _ => none) (["a\n".toList].map Except.ok)
      = (pullChunkEvents (fun _ => none) ["a\n".toList].flatten).map Except.ok
    ∧ chatStream (fun _ => none) (["a\n".toList].map Except.ok)
      = (chatChunkEvents (fun _ => none) ["a\n".toList].flatten).map Except.ok :=
  stream_decoding_invariant_on_record_boundaries _ _ _ (by
    intro c hc
    rw [List.mem_singleton] at hc
    subst hc
    exact Or.inr ⟨['a'], rfl⟩)

/-- Counterexample to claim C1 as stated: one record split across a chunk
boundary.  Concatenated, the pull record `\x7b"status":"x"\x7d` decodes to
the single event with status `"x"`; chunked mid-record, the decoder emits
two raw-status events instead (no trailing-record buffering), so the two
chunkings of the same byte sequence disagree.  Likewise for the chat
endpoint, where the fragments are dropped and the chunked stream emits no
event at all. -/
theorem stream_decoding_not_chunking_invariant :
    pullStream pullParseEx [Except.ok (pullChunkA ++ pullChunkB)]
      = [Except.ok { status := "x", digest := none, total := none, completed := none }]
    ∧ pullStream pullParseEx [Except.ok pullChunkA, Except.ok pullChunkB]
      = [Except.ok { status := "\x7b\"status\":\"x", digest := none, total := none,
                     completed := none },
         Except.ok { status := "\"\x7d", digest := none, total := none, completed := none }]
    ∧ pullStream pullParseEx [Except.ok pullChunkA, Except.ok pullChunkB]
      ≠ pullStream pullParseEx [Except.ok (pullChunkA ++ pullChunkB)]
    ∧ chatStream chatParseEx [Except.ok (chatChunkA ++ chatChunkB)]
      = [Except.ok { content := "hi", tool_calls := none, done := true }]
    ∧ chatStream chatParseEx [Except.ok chatChunkA, Except.ok chatChunkB] = []
    ∧ chatStream chatParseEx [Except.ok chatChunkA, Except.ok chatChunkB]
      ≠ chatStream chatParseEx [Except.ok (chatChunkA ++ chatChunkB)] := by
  have hp1 : pullStream pullParseEx [Except.ok (pullChunkA ++ pullChunkB)]
      = [Except.ok { status := "x", digest := none, total := none, completed := none }] := rfl
  have hp2 : pullStream pullParseEx [Except.ok pullChunkA, Except.ok pullChunkB]
      = [Except.ok { status := "\x7b\"status\":\"x", digest := none, total := none,
                     completed := none },
         Except.ok { status := "\"\x7d", digest := none, total := none,
                     completed := none }] := rfl
  have hc1 : chatStream chatParseEx [Except.ok (chatChunkA ++ chatChunkB)]
      = [Except.ok { content := "hi", tool_calls := none, done := true }] := rfl
  have hc2 : chatStream chatParseEx [Except.ok chatChunkA, Except.ok chatChunkB] = [] := rfl
  refine ⟨hp1, hp2, ?_, hc1, hc2, ?_⟩
  · intro h
    rw [hp1, hp2] at h
    have := congrArg List.length h
    simp at this
  · intro h
    rw [hc1, hc2] at h
    exact List.noConfusion h

/-! ## Claims C3, C4, C5: per-record decoding policies -/

/-- Claim C3 (confirmed): a complete pull record whose JSON parse fails is
decoded to exactly one `PullProgress` event whose status is the raw record
text and whose digest/total/completed are all unknown; the event is an `Ok`
stream item (not a fatal error) and decoding continues with the remainder
of the chunk and of the stream. -/
theorem pull_malformed_record_degrades_to_status
    (parse : String → Option Json) (pre line rest : List Char)
    (more : List (Except String (List Char)))
    (hpre : pre = [] ∨ ∃ d, pre = d ++ ['\n'])
    (hnl : '\n' ∉ line) (hne : line ≠ [])
    (hparse : parse (String.mk line) = none) :
    pullStream parse (Except.ok (pre ++ (line ++ '\n' :: rest)) :: more)
      = (pullChunkEvents parse pre).map Except.ok
        ++ Except.ok { status := String.mk line, digest := none, total := none,
                       completed := none }
           :: ((pullChunkEvents parse rest).map Except.ok ++ pullStream parse more) := by
  rw [pullStream, List.flatMap_cons]
  show (pullChunkEvents parse (pre ++ (line ++ '\n' :: rest))).map Except.ok
      ++ pullStream parse more = _
  rw [pullChunkEvents, chunkRecords_append _ hpre, chunkRecords_cons_record rest hnl hne,
      List.map_append, List.map_cons, List.map_append, List.map_cons]
  have hdec : decodePullRecord parse line
      = { status := String.mk line, digest := none, total := none, completed := none } := by
    rw [decodePullRecord]
    simp [hparse]
  rw [hdec]
  simp [pullChunkEvents, List.append_assoc]

/-- Witness for C3: the unparseable record `"oops"` alone in a chunk, with
a parser rejecting everything. -/
theorem pull_malformed_record_witness :
    pullStream (fun _ => none)
        (Except.ok (([] : List Char) ++ ("oops".toList ++ '\n' :: ([] : List Char))) :: [])
      = (pullChunkEvents (fun _ => none) []).map Except.ok
        ++ Except.ok { status := String.mk "oops".toList, digest := none, total := none,
                       completed := none }
           :: ((pullChunkEvents (fun _ => none) []).map Except.ok
               ++ pullStream (fun _ => none) []) :=
  pull_malformed_record_degrades_to_status (fun _ => none) [] "oops".toList [] []
    (Or.inl rfl) (by decide) (by decide) rfl

/-- Claim C4 (confirmed): a complete chat record whose typed JSON parse
fails contributes zero events (the record is dropped; the stderr diagnostic
has no effect on the stream), and every remaining record in the chunk and
stream is still decoded. -/
theorem chat_malformed_record_dropped
    (parse : List Char → Option ChatResponse) (pre line rest : List Char)
    (more : List (Except String (List Char)))
    (hpre : pre = [] ∨ ∃ d, pre = d ++ ['\n'])
    (hnl : '\n' ∉ line) (hne : line ≠ [])
    (hparse : parse line = none) :
    chatStream parse (Except.ok (pre ++ (line ++ '\n' :: rest)) :: more)
      = (chatChunkEvents parse pre).map Except.ok
        ++ ((chatChunkEvents parse rest).map Except.ok ++ chatStream parse more) := by
  rw [chatStream, List.flatMap_cons]
  show (chatChunkEvents parse (pre ++ (line ++ '\n' :: rest))).map Except.ok
      ++ chatStream parse more = _
  rw [chatChunkEvents, chunkRecords_append _ hpre, chunkRecords_cons_record rest hnl hne,
      List.flatMap_append, List.flatMap_cons]
  have hdec : decodeChatRecord parse line = [] := by
    rw [decodeChatRecord, hparse]
  rw [hdec]
  simp [chatChunkEvents, List.append_assoc]

/-- Witness for C4: the malformed line `"oops"` is dropped while the valid
record that follows it in the same chunk is still decoded (the right-hand
side evaluates to that record's single event). -/
theorem chat_malformed_record_witness :
    chatStream chatParseGoodEx
        (Except.ok (([] : List Char)
          ++ ("oops".toList ++ '\n' :: (chatGoodRecordEx.toList ++ ['\n']))) :: [])
      = (chatChunkEvents chatParseGoodEx []).map Except.ok
        ++ ((chatChunkEvents chatParseGoodEx (chatGoodRecordEx.toList ++ ['\n'])).map Except.ok
            ++ chatStream chatParseGoodEx []) :=
  chat_malformed_record_dropped chatParseGoodEx [] "oops".toList
    (chatGoodRecordEx.toList ++ ['\n']) [] (Or.inl rfl) (by decide) (by decide) rfl

/-- Claim C5 (confirmed): a pull record that parses as JSON always decodes
(one event is emitted), and each absent optional field decodes to unknown:
a missing digest gives `none`, and missing total/completed counts give
`none` rather than zero. -/
theorem pull_record_optional_fields_absent
    (parse : String → Option Json) (pre line rest : List Char)
    (more : List (Except String (List Char))) (j : Json)
    (hpre : pre = [] ∨ ∃ d, pre = d ++ ['\n'])
    (hnl : '\n' ∉ line) (hne : line ≠ [])
    (hparse : parse (String.mk line) = some j) :
    pullStream parse (Except.ok (pre ++ (line ++ '\n' :: rest)) :: more)
      = (pullChunkEvents parse pre).map Except.ok
        ++ Except.ok (decodePullRecord parse line)
           :: ((pullChunkEvents parse rest).map Except.ok ++ pullStream parse more)
    ∧ (j.get "digest" = none → (decodePullRecord parse line).digest = none)
    ∧ (j.get "total" = none → (decodePullRecord parse line).total = none)
    ∧ (j.get "completed" = none → (decodePullRecord parse line).completed = none) := by
  refine ⟨?_, ?_, ?_, ?_⟩
  · rw [pullStream, List.flatMap_cons]
    show (pullChunkEvents parse (pre ++ (line ++ '\n' :: rest))).map Except.ok
        ++ pullStream parse more = _
    rw [pullChunkEvents, chunkRecords_append _ hpre, chunkRecords_cons_record rest hnl hne,
        List.map_append, List.map_cons, List.map_append, List.map_cons]
    simp [pullChunkEvents, List.append_assoc]
  · intro h
    rw [decodePullRecord]
    simp [hparse, h]
  · intro h
    rw [decodePullRecord]
    simp [hparse, h]
  · intro h
    rw [decodePullRecord]
    simp [hparse, h]

/-- Witness for C5: the record `\x7b"status":"x"\x7d` parses, carries no
digest/total/completed, and decodes to a single event with those fields
unknown. -/
theorem pull_record_optional_fields_witness :
    (pullStream pullParseEx
        (Except.ok (([] : List Char) ++ (pullRecordEx.toList ++ '\n' :: ([] : List Char))) :: [])
      = (pullChunkEvents pullParseEx []).map Except.ok
        ++ Except.ok (decodePullRecord pullParseEx pullRecordEx.toList)
           :: ((pullChunkEvents pullParseEx []).map Except.ok ++ pullStream pullParseEx []))
    ∧ (decodePullRecord pullParseEx pullRecordEx.toList).digest = none
    ∧ (decodePullRecord pullParseEx pullRecordEx.toList).total = none
    ∧ (decodePullRecord pullParseEx pullRecordEx.toList).completed = none := by
  have h := pull_record_optional_fields_absent pullParseEx [] pullRecordEx.toList [] []
    (Json.obj [("status", Json.str "x")]) (Or.inl rfl) (by decide) (by decide) rfl
  exact ⟨h.1, h.2.1 rfl, h.2.2.1 rfl, h.2.2.2 rfl⟩

/-! ## Claim C2: aggregation in send_chat_request -/

theorem string_append_empty (s : String) : s ++ "" = s := by
  cases s with
  | mk d => show String.mk (d ++ []) = String.mk d; rw [List.append_nil]

theorem string_append_assoc (a b c : String) : a ++ b ++ c = a ++ (b ++ c) := by
  cases a; cases b; cases c
  show String.mk _ = String.mk _
  rw [List.append_assoc]

theorem string_isEmpty_eq (s : String) (h : s.isEmpty = true) : s = "" :=
  (String.isEmpty_iff s).mp h

theorem sendChatRequestLoop_ok_spec (items : List ChatStreamItem) :
    ∀ (acc : String) (tc : Option (List ToolCall)),
    sendChatRequestLoop (items.map Except.ok) acc tc
      = .ok (acc ++ (takeThroughDone items).foldr (fun i r => i.content ++ r) "",
             (((takeThroughDone items).filterMap (fun i => i.tool_calls)).getLast?).or tc) := by
  induction items with
  | nil =>
    intro acc tc
    simp [sendChatRequestLoop, takeThroughDone, string_append_empty]
  | cons i rest ih =>
    intro acc tc
    rw [List.map_cons]
    show (if i.done
        then Except.ok (
          (if i.content.isEmpty then acc else acc ++ i.content),
          (match i.tool_calls with | some t => some t | none => tc))
        else sendChatRequestLoop (rest.map Except.ok)
          (if i.content.isEmpty then acc else acc ++ i.content)
          (match i.tool_calls with | some t => some t | none => tc)) = _
    have hacc : (if i.content.isEmpty then acc else acc ++ i.content) = acc ++ i.content := by
      by_cases he : i.content.isEmpty
      · rw [if_pos he, string_isEmpty_eq _ he, string_append_empty]
      · rw [if_neg he]
    rw [hacc]
    by_cases hd : i.done
    · rw [if_pos hd, takeThroughDone, if_pos hd]
      cases htc : i.tool_calls with
      | none =>
        simp [htc, string_append_empty]
      | some t =>
        simp [htc, string_append_empty]
    · rw [if_neg hd, takeThroughDone, if_neg hd, ih]
      cases htc : i.tool_calls with
      | none =>
        simp [htc, List.foldr_cons, string_append_assoc]
      | some t =>
        simp only [htc, List.foldr_cons, List.filterMap_cons, string_append_assoc]
        refine congrArg Except.ok (congrArg _ ?_)
        rcases hm : (takeThroughDone rest).filterMap (fun i => i.tool_calls) with _ | ⟨m, ms⟩
        · rw [hm]
          rfl
        · rw [hm, List.getLast?_cons_cons]
          rcases hql : (m :: ms).getLast? with _ | v
          · exact absurd hql (by simp)
          · simp [hql]

/-- Claim C2 (confirmed): `send_chat_request` consumes the event sequence
up to and including the first `done = true` event (or all of it), returns
as full text the concatenation of the consumed content deltas in emission
order, and as tool calls the last present (`Some`) `tool_calls` field among
the consumed events — last-write-wins, not accumulated.  The spec's worked
example `"Hel"`, `"lo"`, `""`-with-done aggregates to `"Hello"`. -/
theorem send_chat_request_aggregates :
    (∀ items : List ChatStreamItem,
      sendChatRequest (items.map Except.ok)
        = .ok ((takeThroughDone items).foldr (fun i r => i.content ++ r) "",
               ((takeThroughDone items).filterMap (fun i => i.tool_calls)).getLast?))
    ∧ sendChatRequest
        ([{ content := "Hel", tool_calls := none, done := false },
          { content := "lo", tool_calls := none, done := false },
          { content := "", tool_calls := none, done := true }].map Except.ok)
        = .ok ("Hello", none) := by
  constructor
  · intro items
    rw [sendChatRequest, sendChatRequestLoop_ok_spec]
    rw [Option.or_none]
    rfl
  · rfl

/-! ## Claims C6, C7, C10: image attachment -/

theorem encodeImages_ok (bytes : String → List Nat) (b64 : List Nat → String) :
    ∀ paths : List String,
    encodeImages (fun p => .ok (bytes p)) b64 paths
      = .ok (paths.map (fun p => b64 (bytes p))) := by
  intro paths
  induction paths with
  | nil => rfl
  | cons p rest ih => simp [encodeImages, ih, Except.map]

theorem encodeImages_error (readFile : String → Except String (List Nat))
    (b64 : List Nat → String) :
    ∀ (paths : List String) (p e : String), p ∈ paths → readFile p = .error e →
    ∃ e2, encodeImages readFile b64 paths = .error e2 := by
  intro paths
  induction paths with
  | nil =>
    intro p e hp
    exact absurd hp (List.not_mem_nil p)
  | cons q rest ih =>
    intro p e hp herr
    cases hq : readFile q with
    | error e' => exact ⟨e', by simp [encodeImages, hq]⟩
    | ok bytes =>
      rcases List.mem_cons.mp hp with rfl | hp'
      · rw [hq] at herr
        exact Except.noConfusion herr
      · obtain ⟨e2, h2⟩ := ih p e hp' herr
        exact ⟨e2, by simp [encodeImages, hq, h2, Except.map]⟩

theorem attachImages_concat (ms : List Message) (m : Message) (encoded : List String) :
    attachImages (ms ++ [m]) encoded = ms ++ [{ m with images := some encoded }] := by
  induction ms with
  | nil => rfl
  | cons a ms ih =>
    cases ms with
    | nil => rfl
    | cons b ms2 =>
      show a :: attachImages ((b :: ms2) ++ [m]) encoded = _
      rw [ih]
      rfl

/-- Claim C6 (confirmed): with readable image paths, the outgoing request
carries the history with the encoded image list attached to the last
message only — the prefix of earlier messages is unchanged (`dropLast`
agrees), and only the `images` field of the last message is replaced.  The
caller's list itself is untouched: the source clones it (`to_vec` on a
`&[Message]` borrow) and the embedding is a pure function of it. -/
theorem send_with_images_attaches_only_last
    (bytes : String → List Nat) (b64 : List Nat → String)
    (messages : List Message) (paths : List String)
    (hne : messages ≠ []) :
    sendChatRequestWithImagesCall (fun p => .ok (bytes p)) b64 messages paths
      = .sent (attachImages messages (paths.map (fun p => b64 (bytes p))))
    ∧ ∀ encoded : List String,
      (attachImages messages encoded).dropLast = messages.dropLast
      ∧ (attachImages messages encoded).getLast?
        = messages.getLast?.map (fun m => { m with images := some encoded }) := by
  constructor
  · rw [sendChatRequestWithImagesCall, encodeImages_ok]
  · intro encoded
    obtain ⟨ms, m, rfl⟩ : ∃ ms m, messages = ms ++ [m] :=
      ⟨messages.dropLast, messages.getLast hne, (List.dropLast_append_getLast hne).symm⟩
    rw [attachImages_concat]
    constructor
    · rw [List.dropLast_concat, List.dropLast_concat]
    · rw [List.getLast?_concat, List.getLast?_concat]
      rfl

/-- Witness for C6 at a two-message history and one readable path. -/
theorem send_with_images_attaches_only_last_witness :
    sendChatRequestWithImagesCall (fun _ => Except.ok [7]) (fun _ => "ZW5j")
        [msgUserEx, msgAsstEx] ["img.png"]
      = .sent (attachImages [msgUserEx, msgAsstEx] (["img.png"].map (fun _ => "ZW5j")))
    ∧ (attachImages [msgUserEx, msgAsstEx] ["ZW5j"]).dropLast
      = ([msgUserEx, msgAsstEx] : List Message).dropLast
    ∧ (attachImages [msgUserEx, msgAsstEx] ["ZW5j"]).getLast?
      = ([msgUserEx, msgAsstEx] : List Message).getLast?.map
          (fun m => { m with images := some ["ZW5j"] }) := by
  have h := send_with_images_attaches_only_last (fun _ => [7]) (fun _ => "ZW5j")
    [msgUserEx, msgAsstEx] ["img.png"] (List.cons_ne_nil _ _)
  exact ⟨h.1, (h.2 ["ZW5j"]).1, (h.2 ["ZW5j"]).2⟩

/-- Claim C7 (confirmed): if any listed image file fails to read, the call
resolves to an I/O error and is never a sent request — the read loop runs
and aborts before the HTTP request exists. -/
theorem send_with_images_read_failure_aborts
    (readFile : String → Except String (List Nat)) (b64 : List Nat → String)
    (messages : List Message) (paths : List String) (p e : String)
    (hp : p ∈ paths) (herr : readFile p = .error e) :
    (∃ e2, sendChatRequestWithImagesCall readFile b64 messages paths = .ioError e2)
    ∧ ∀ out, sendChatRequestWithImagesCall readFile b64 messages paths ≠ .sent out := by
  obtain ⟨e2, h2⟩ := encodeImages_error readFile b64 paths p e hp herr
  refine ⟨⟨e2, ?_⟩, ?_⟩
  · rw [sendChatRequestWithImagesCall, h2]
  · intro out hsent
    rw [sendChatRequestWithImagesCall, h2] at hsent
    exact ImagesCallOutcome.noConfusion hsent

/-- Witness for C7: a single unreadable path. -/
theorem send_with_images_read_failure_witness :
    (∃ e2, sendChatRequestWithImagesCall (fun _ => Except.error "no such file")
        (fun _ => "") [msgUserEx] ["img.png"] = .ioError e2)
    ∧ ∀ out, sendChatRequestWithImagesCall (fun _ => Except.error "no such file")
        (fun _ => "") [msgUserEx] ["img.png"] ≠ .sent out :=
  send_with_images_read_failure_aborts (fun _ => Except.error "no such file") (fun _ => "")
    [msgUserEx] ["img.png"] "img.png" "no such file" (List.mem_singleton.mpr rfl) rfl

/-- Claim C10 (confirmed): with readable paths, the last message of the
outgoing request always gets `images = some` of the encoded list in path
order — `some []` when no paths are given — replacing whatever images the
caller's last message carried; with an empty history nothing is attached
and the request is still sent. -/
theorem send_with_images_edge_cases
    (bytes : String → List Nat) (b64 : List Nat → String)
    (ms : List Message) (m : Message) (paths : List String) (encoded : List String) :
    sendChatRequestWithImagesCall (fun p => .ok (bytes p)) b64 (ms ++ [m]) paths
      = .sent (ms ++ [{ m with images := some (paths.map (fun p => b64 (bytes p))) }])
    ∧ attachImages (ms ++ [m]) encoded = ms ++ [{ m with images := some encoded }]
    ∧ attachImages (ms ++ [m]) [] = ms ++ [{ m with images := some [] }]
    ∧ sendChatRequestWithImagesCall (fun p => .ok (bytes p)) b64 [] paths = .sent [] := by
  refine ⟨?_, attachImages_concat ms m encoded, attachImages_concat ms m [], ?_⟩
  · rw [sendChatRequestWithImagesCall, encodeImages_ok]
    exact congrArg ImagesCallOutcome.sent (attachImages_concat ms m _)
  · rw [sendChatRequestWithImagesCall, encodeImages_ok]
    rfl

/-! ## Claim C8: tool dispatch -/

/-- Claim C8 (confirmed): `handle_tool_calls` maps each call whose function
name exactly matches a registered tool (first match, exact string equality)
to one `role = "tool"` message carrying the handler's output on the call's
argument tree, in call order, and drops calls matching no tool without
error. -/
theorem handle_tool_calls_dispatch :
    (∀ (tools : List Tool) (calls : List ToolCall),
      handleToolCalls tools calls
        = calls.filterMap (fun call =>
            (tools.find? (fun t => t.name == call.function.name)).map (fun tool =>
              { role := "tool", content := tool.function call.function.arguments,
                images := none, tool_calls := none })))
    ∧ (∀ (tools : List Tool) (call : ToolCall) (rest : List ToolCall),
        tools.find? (fun t => t.name == call.function.name) = none →
        handleToolCalls tools (call :: rest) = handleToolCalls tools rest)
    ∧ (∀ (tools : List Tool) (name : String) (tool : Tool),
        tools.find? (fun t => t.name == name) = some tool → tool.name = name) := by
  refine ⟨?_, ?_, ?_⟩
  · intro tools calls
    induction calls with
    | nil => rfl
    | cons call rest ih =>
      rw [List.filterMap_cons]
      cases hf : tools.find? (fun t => t.name == call.function.name) with
      | none => simp [handleToolCalls, hf, ih]
      | some tool => simp [handleToolCalls, hf, ih]
  · intro tools call rest h
    simp [handleToolCalls, h]
  · intro tools name tool h
    have hb := List.find?_some h
    exact eq_of_beq hb

/-- Witness for C8: the spec's worked example — a registered `get_weather`
tool, one matching call (dispatched to one `role = "tool"` message) and one
unknown call (dropped). -/
theorem handle_tool_calls_dispatch_witness :
    handleToolCalls [toolWeatherEx] [callWeatherEx, callUnknownEx]
      = [{ role := "tool", content := "sunny", images := none, tool_calls := none }]
    ∧ handleToolCalls [toolWeatherEx] [callUnknownEx] = handleToolCalls [toolWeatherEx] []
    ∧ toolWeatherEx.name = "get_weather" := by
  refine ⟨?_, ?_, ?_⟩
  · rw [handle_tool_calls_dispatch.1]
    rfl
  · exact handle_tool_calls_dispatch.2.1 [toolWeatherEx] callUnknownEx [] rfl
  · exact handle_tool_calls_dispatch.2.2 [toolWeatherEx] "get_weather" toolWeatherEx rfl

/-! ## Claim C9: tool schema serialization in the request body -/

/-- Claim C9, amended: whenever the tool registry is non-empty, the chat
request body carries a `tools` field equal to the registry serialized as a
schema list, each entry of shape
`\x7btype: "function", function: \x7bname, description, parameters\x7d\x7d`;
with an empty registry the `tools` field is omitted from the body. -/
theorem chat_request_body_serializes_tools
    (model : String) (messages : List Message) (tools : List Tool)
    (hne : tools ≠ []) :
    (chatRequestBody model messages tools).get "tools"
      = some (.arr (tools.map Tool.toJson))
    ∧ ∀ t : Tool, Tool.toJson t
      = .obj [("type", .str "function"),
              ("function", .obj [("name", .str t.name),
                                 ("description", .str t.description),
                                 ("parameters", t.parameters)])] := by
  constructor
  · cases tools with
    | nil => exact absurd rfl hne
    | cons t ts => rfl
  · intro t
    rfl

/-- Witness for the amended C9 theorem at a one-tool registry. -/
theorem chat_request_body_serializes_tools_witness :
    (chatRequestBody "llama" [msgUserEx] [toolWeatherEx]).get "tools"
      = some (.arr ([toolWeatherEx].map Tool.toJson))
    ∧ Tool.toJson toolWeatherEx
      = .obj [("type", .str "function"),
              ("function", .obj [("name", .str toolWeatherEx.name),
                                 ("description", .str toolWeatherEx.description),
                                 ("parameters", toolWeatherEx.parameters)])] := by
  have h := chat_request_body_serializes_tools "llama" [msgUserEx] [toolWeatherEx]
    (List.cons_ne_nil _ _)
  exact ⟨h.1, h.2 toolWeatherEx⟩

/-- Counterexample to claim C9 as stated: with an empty tool registry the
request body contains no `tools` key at all — the (empty) registry is not
serialized as a schema list. -/
theorem chat_request_body_omits_tools_when_empty :
    (chatRequestBody "m" [] []).get "tools" = none
    ∧ (chatRequestBody "m" [] []).get "tools"
      ≠ some (.arr (([] : List Tool).map Tool.toJson)) := by
  refine ⟨rfl, fun h => ?_⟩
  rw [show (chatRequestBody "m" [] []).get "tools" = none from rfl] at h
  exact Option.noConfusion h

end OllamaRust
